import Mathlib

/-!
Shallow embedding of `koishi-plugin-blacklist-online` (src/core.ts, src/index.ts,
src/types.ts) and verification of its specification claims.

Effectful operations (HTTP calls, database access, kick attempts) are modelled by
explicit state passing over a `DB` record plus outcome oracles supplied as
parameters; exceptions are modelled as `Except`/early-abort paths.
-/

set_option autoImplicit false

namespace BlacklistOnline

/-! ## JavaScript string and truthiness helpers -/

/-- JavaScript `a || b` on strings: the empty string is falsy. -/
def jsOr (a b : String) : String := if a = "" then b else a

/-- JavaScript `a || b` where `a` may be `undefined` (modelled as `none`). -/
def jsOrUndef (a : Option String) (b : String) : String :=
  match a with
  | none => b
  | some s => if s = "" then b else s

/-- Replace the leftmost occurrence of `pat` in a character list. -/
def replFirstAux (pat repl : List Char) : List Char → List Char
  | [] => if pat.isEmpty then repl else []
  | c :: cs =>
    if pat.isPrefixOf (c :: cs) then repl ++ (c :: cs).drop pat.length
    else c :: replFirstAux pat repl cs

/-- JavaScript `String.prototype.replace` with a string pattern: replaces only
the first (leftmost) occurrence of `pat` in `s`. -/
def replaceFirst (s pat repl : String) : String :=
  String.mk (replFirstAux pat.data repl.data s.data)

/-! ## Data model (src/types.ts) -/

/-- Row of the `blacklist_users` table (`BlacklistEntry` in types.ts). -/
structure BlacklistEntry where
  user_id : String
  reason : String
  operator_id : Option String := none
  source_id : Option String := none
  disabled : Bool
  updated_at : Nat := 0
deriving DecidableEq, Repr

/-- Row of the `blacklist_whitelist` table (`WhitelistEntry` in types.ts). -/
structure WhitelistEntry where
  user_id : String
  reason : Option String := none
  operator_id : Option String := none
  created_at : Nat := 0
deriving DecidableEq, Repr

/-- Opaque request body; we model only the two id fields the code inspects:
the snake_case `request_id` set by the command layer (index.ts) and the
camelCase `requestId` read and written by `queueRequest` (core.ts). -/
structure Payload where
  request_id : Option String := none
  requestId : Option String := none
deriving DecidableEq, Repr

/-- Row of the `blacklist_request_queue` table (`OfflineRequest` in types.ts). -/
structure OfflineRequest where
  id : String
  type : String
  payload : Payload
  createdAt : Nat
  retryCount : Nat
deriving DecidableEq, Repr

/-- Row of the `blacklist_meta` table (`MetaEntry` in types.ts). -/
structure MetaEntry where
  key : String
  value : String
deriving DecidableEq, Repr

/-- Row of the `blacklist_guild_settings` table (`GuildSettings` in types.ts). -/
structure GuildSettings where
  guildId : String
  mode : String
deriving DecidableEq, Repr

/-- The record store: the five Koishi tables declared in types.ts. -/
structure DB where
  blacklist_users : List BlacklistEntry
  blacklist_whitelist : List WhitelistEntry
  blacklist_request_queue : List OfflineRequest
  blacklist_meta : List MetaEntry
  blacklist_guild_settings : List GuildSettings
deriving DecidableEq, Repr

/-! ## Keyed table operations (semantics of the Koishi record store)

`upsert` replaces the row with the same primary key in place, or appends;
`remove` by a key list deletes every row whose key is in the list. -/

section TableOps

variable {α : Type}

/-- Does the table contain a row with key `k`? -/
def hasKey (key : α → String) (k : String) (t : List α) : Bool :=
  t.any (fun x => key x == k)

/-- One in-place replacement step used by `upsertK`. -/
def repK (key : α → String) (r x : α) : α :=
  if key x == key r then r else x

/-- Upsert of a single row: replace in place if the key is present, else append. -/
def upsertK (key : α → String) (r : α) (t : List α) : List α :=
  if hasKey key (key r) t then t.map (repK key r) else t ++ [r]

/-- Upsert of a list of rows, in order. -/
def upsertListK (key : α → String) (rows : List α) (t : List α) : List α :=
  rows.foldl (fun acc r => upsertK key r acc) t

/-- Remove every row whose key occurs in `ks`. -/
def removeKeysK (key : α → String) (ks : List String) (t : List α) : List α :=
  t.filter (fun x => !(ks.contains (key x)))

/-- Net effect of upserting every row of `U` on one pre-existing row. -/
def applyAllK (key : α → String) (U : List α) (x : α) : α :=
  U.foldl (fun y r => repK key r y) x

end TableOps

/-- First value stored under meta key `k`, if any. -/
def getMetaValue (db : DB) (k : String) : Option String :=
  ((db.blacklist_meta.filter (fun m => m.key == k)).head?).map (·.value)

/-! ## Synchronization engine (syncBlacklist, core.ts lines 30-115) -/

/-- The `data` field of a `/sync` response: either a bare legacy array or an
object carrying the optional field arrays the two strategies read. -/
inductive RespData where
  | legacy (rows : List BlacklistEntry)
  | obj (blacklist : Option (List BlacklistEntry))
        (whitelist : Option (List WhitelistEntry))
        (upserts : Option (List BlacklistEntry))
        (deletes : Option (List String))
        (whitelist_upserts : Option (List WhitelistEntry))
        (whitelist_deletes : Option (List String))
deriving DecidableEq, Repr

/-- `Array.isArray(data) ? data : (data.blacklist || [])`. -/
def RespData.blacklistData : RespData → List BlacklistEntry
  | .legacy rows => rows
  | .obj bl _ _ _ _ _ => bl.getD []

/-- `Array.isArray(data) ? [] : (data.whitelist || [])`. -/
def RespData.whitelistData : RespData → List WhitelistEntry
  | .legacy _ => []
  | .obj _ wl _ _ _ _ => wl.getD []

/-- `data.upserts` with undefined treated as empty (`?.length` guard). -/
def RespData.upsertsData : RespData → List BlacklistEntry
  | .legacy _ => []
  | .obj _ _ up _ _ _ => up.getD []

/-- `data.deletes` with undefined treated as empty. -/
def RespData.deletesData : RespData → List String
  | .legacy _ => []
  | .obj _ _ _ del _ _ => del.getD []

/-- `data.whitelist_upserts` with undefined treated as empty. -/
def RespData.wlUpsertsData : RespData → List WhitelistEntry
  | .legacy _ => []
  | .obj _ _ _ _ wup _ => wup.getD []

/-- `data.whitelist_deletes` with undefined treated as empty. -/
def RespData.wlDeletesData : RespData → List String
  | .legacy _ => []
  | .obj _ _ _ _ _ wdel => wdel.getD []

/-- A `/sync` response. -/
structure SyncResponse where
  strategy : String
  newRevision : String
  data : RespData
deriving Repr

/-- Fuel-indexed chunking helper; the fuel is an upper bound on the number of
chunks still to produce. -/
def chunkListAux (n : Nat) : {α : Type} → Nat → List α → List (List α)
  | _, _, [] => []
  | _, 0, _ :: _ => []
  | _, fuel + 1, x :: xs => (x :: xs).take n :: chunkListAux n fuel (xs.drop (n - 1))

/-- Split a list into consecutive chunks of size `n` (the batched upsert loop
`for (let i = 0; i < len; i += batchSize) slice(i, i + batchSize)`). -/
def chunkList (n : Nat) {α : Type} (l : List α) : List (List α) :=
  chunkListAux n l.length l

/-- One database write performed by `syncBlacklist`. -/
inductive WriteOp where
  | clearUsers
  | clearWhitelist
  | upsertUsers (rows : List BlacklistEntry)
  | upsertWhitelist (rows : List WhitelistEntry)
  | deleteUsers (ids : List String)
  | deleteWhitelist (ids : List String)
  | putMeta (key value : String)
deriving Repr

/-- Effect of a single write on the record store. -/
def applyOp : WriteOp → DB → DB
  | .clearUsers, db => { db with blacklist_users := [] }
  | .clearWhitelist, db => { db with blacklist_whitelist := [] }
  | .upsertUsers rows, db =>
      { db with blacklist_users := upsertListK (·.user_id) rows db.blacklist_users }
  | .upsertWhitelist rows, db =>
      { db with blacklist_whitelist := upsertListK (·.user_id) rows db.blacklist_whitelist }
  | .deleteUsers ids, db =>
      { db with blacklist_users := removeKeysK (·.user_id) ids db.blacklist_users }
  | .deleteWhitelist ids, db =>
      { db with blacklist_whitelist := removeKeysK (·.user_id) ids db.blacklist_whitelist }
  | .putMeta k v, db =>
      { db with blacklist_meta := upsertK (·.key) ⟨k, v⟩ db.blacklist_meta }

/-- Apply a sequence of writes (no failures). -/
def applyOps (ops : List WriteOp) (db : DB) : DB :=
  ops.foldl (fun d op => applyOp op d) db

/-- Writes that never touch the `blacklist_meta` table. -/
def metaSafe : WriteOp → Prop
  | .putMeta _ _ => False
  | _ => True

/-- The ordered write sequence of one sync run for a given response, together
with the `hasNewEntries` flag (core.ts lines 51-105). -/
def syncPlan (resp : SyncResponse) : List WriteOp × Bool :=
  if resp.strategy = "full_replace" then
    let bl := resp.data.blacklistData
    let wl := resp.data.whitelistData
    ([WriteOp.clearUsers, WriteOp.clearWhitelist]
      ++ (if bl.isEmpty then [] else (chunkList 100 bl).map WriteOp.upsertUsers)
      ++ (if wl.isEmpty then [] else (chunkList 100 wl).map WriteOp.upsertWhitelist),
     !bl.isEmpty)
  else if resp.strategy = "incremental" then
    let u := resp.data.upsertsData
    let d := resp.data.deletesData
    let wu := resp.data.wlUpsertsData
    let wd := resp.data.wlDeletesData
    ((if u.isEmpty then [] else [WriteOp.upsertUsers u])
      ++ (if d.isEmpty then [] else [WriteOp.deleteUsers d])
      ++ (if wu.isEmpty then [] else [WriteOp.upsertWhitelist wu])
      ++ (if wd.isEmpty then [] else [WriteOp.deleteWhitelist wd]),
     !u.isEmpty)
  else ([], false)

/-- Run writes in order; `fail k = true` means the `k`-th write raises, leaving
the store as accumulated so far (writes are atomic, exceptions abort). -/
def runOps (fail : Nat → Bool) : Nat → List WriteOp → DB → Except DB DB
  | _, [], db => .ok db
  | k, op :: rest, db =>
      if fail k then .error db else runOps fail (k + 1) rest (applyOp op db)

/-- The body of `syncBlacklist` up to its try/catch: `net = none` models an
exception in the initial reads or the HTTP call; a `runOps` error models an
exception inside the write sequence. The error value is the store at the
moment the exception was raised. -/
def syncAttempt (net : Option SyncResponse) (fail : Nat → Bool) (db : DB) :
    Except DB (Bool × DB) :=
  match net with
  | none => .error db
  | some resp =>
    if resp.strategy = "up-to-date" then .ok (false, db)
    else
      let plan := syncPlan resp
      match runOps fail 0 (plan.1 ++ [WriteOp.putMeta "sync_revision" resp.newRevision]) db with
      | .ok db2 => .ok (plan.2, db2)
      | .error db2 => .error db2

/-- `syncBlacklist`: the catch clause turns every exception into a `false`
result (core.ts lines 111-114). -/
def syncBlacklist (net : Option SyncResponse) (fail : Nat → Bool) (db : DB) : Bool × DB :=
  match syncAttempt net fail db with
  | .ok r => r
  | .error db2 => (false, db2)

/-! ## Offline request queue (queueRequest / processOfflineQueue, core.ts) -/

/-- `queueRequest` (core.ts lines 118-130). `freshId` models the value
`randomUUID()` would produce; `now` models `new Date()`. Returns the id
handed back to the caller, the mutated payload, and the new store. -/
def queueRequest (freshId : String) (ty : String) (payload : Payload) (now : Nat)
    (db : DB) : String × Payload × DB :=
  let requestId := jsOrUndef payload.requestId freshId
  let payload2 := { payload with requestId := some requestId }
  (requestId, payload2,
    { db with blacklist_request_queue :=
        db.blacklist_request_queue ++ [⟨requestId, ty, payload2, now, 0⟩] })

/-- Outcome of one `/applications` delivery attempt: `none` is success, `some e`
is a thrown HTTP error with the fields the catch clause inspects. -/
structure DeliverError where
  code : Option String
  hasResponse : Bool
deriving DecidableEq, Repr

/-- `error.code === 'ECONNABORTED' || error.code === 'ENOTFOUND' || !error.response`
(core.ts line 169). -/
def isNetworkError (e : DeliverError) : Bool :=
  e.code == some "ECONNABORTED" || e.code == some "ENOTFOUND" || !e.hasResponse

/-- Stable insertion into a createdAt-ascending list. -/
def insertByCreated (x : OfflineRequest) : List OfflineRequest → List OfflineRequest
  | [] => [x]
  | y :: ys => if x.createdAt ≤ y.createdAt then x :: y :: ys else y :: insertByCreated x ys

/-- The store's `sort: {createdAt: 'asc'}` on the queue table. -/
def sortByCreatedAt : List OfflineRequest → List OfflineRequest
  | [] => []
  | x :: xs => insertByCreated x (sortByCreatedAt xs)

/-- The batch fetched at the top of a drain:
`get('blacklist_request_queue', {}, {limit: 10, sort: {createdAt: 'asc'}})`. -/
def drainBatch (db : DB) : List OfflineRequest :=
  (sortByCreatedAt db.blacklist_request_queue).take 10

/-- `set('blacklist_request_queue', {id}, {retryCount := n})`. -/
def setRetry (id : String) (n : Nat) (q : List OfflineRequest) : List OfflineRequest :=
  q.map (fun x => if x.id == id then { x with retryCount := n } else x)

/-- `remove('blacklist_request_queue', {id})`. -/
def removeId (id : String) (q : List OfflineRequest) : List OfflineRequest :=
  q.filter (fun x => !(x.id == id))

/-- Result of one drain: final store, delivery attempts made (item ids, in
order), and the number of store operations performed. -/
structure DrainRes where
  db : DB
  attempts : List String
  storeOps : Nat
deriving DecidableEq, Repr

/-- The per-item loop of `processOfflineQueue` (core.ts lines 147-182).
`dlv` gives each item's delivery outcome by id; `sfail k` means the `k`-th
store operation of this drain raises, which the outer catch absorbs, aborting
the rest of the loop. -/
def drainItems (dlv : String → Option DeliverError) (sfail : Nat → Bool) :
    List OfflineRequest → Nat → DB → List String → Nat → DrainRes
  | [], _, db, acc, ops => ⟨db, acc.reverse, ops⟩
  | it :: rest, k, db, acc, ops =>
    if it.retryCount > 5 then
      -- dead letter: evict without a delivery attempt
      if sfail k then ⟨db, acc.reverse, ops⟩
      else drainItems dlv sfail rest (k + 1)
        { db with blacklist_request_queue := removeId it.id db.blacklist_request_queue }
        acc (ops + 1)
    else
      match dlv it.id with
      | none =>
        -- delivery succeeded: delete the queue row
        if sfail k then ⟨db, (it.id :: acc).reverse, ops⟩
        else drainItems dlv sfail rest (k + 1)
          { db with blacklist_request_queue := removeId it.id db.blacklist_request_queue }
          (it.id :: acc) (ops + 1)
      | some e =>
        if isNetworkError e then
          -- network failure: leave the item untouched
          drainItems dlv sfail rest k db (it.id :: acc) ops
        else
          -- business failure: increment retryCount
          if sfail k then ⟨db, (it.id :: acc).reverse, ops⟩
          else drainItems dlv sfail rest (k + 1)
            { db with blacklist_request_queue :=
                setRetry it.id (it.retryCount + 1) db.blacklist_request_queue }
            (it.id :: acc) (ops + 1)

/-- The drain loop specialized to runs without store failures: returns the
final store and the delivery attempts (item ids) of the run, in order. Used
as the proof-level view of `drainItems` with an all-false `sfail`. -/
def drainGo (dlv : String → Option DeliverError) :
    List OfflineRequest → DB → DB × List String
  | [], db => (db, [])
  | it :: rest, db =>
    if it.retryCount > 5 then
      drainGo dlv rest
        { db with blacklist_request_queue := removeId it.id db.blacklist_request_queue }
    else
      match dlv it.id with
      | none =>
        let r := drainGo dlv rest
          { db with blacklist_request_queue := removeId it.id db.blacklist_request_queue }
        (r.1, it.id :: r.2)
      | some e =>
        if isNetworkError e then
          let r := drainGo dlv rest db
          (r.1, it.id :: r.2)
        else
          let r := drainGo dlv rest
            { db with blacklist_request_queue :=
                setRetry it.id (it.retryCount + 1) db.blacklist_request_queue }
          (r.1, it.id :: r.2)

/-- `processOfflineQueue` (core.ts lines 133-188): reentrancy guard, fetch of
up to 10 oldest items, instance-uuid read, per-item loop, and the finally
clause that always clears the guard flag. The returned `Bool` is the flag's
value after the call. -/
def processOfflineQueue (dlv : String → Option DeliverError) (sfail : Nat → Bool)
    (flag : Bool) (db : DB) : Bool × DrainRes :=
  if flag then (true, ⟨db, [], 0⟩)
  else
    let res :=
      if sfail 0 then (⟨db, [], 0⟩ : DrainRes) -- queue fetch raised
      else
        let batch := drainBatch db
        if batch.isEmpty then ⟨db, [], 1⟩
        else if sfail 1 then ⟨db, [], 1⟩ -- instance-uuid read raised
        else drainItems dlv sfail batch 2 db [] 2
    (false, res)

/-! ## Moderation decision engine (checkAndHandleUser, core.ts lines 191-280) -/

/-- The fields of a Group Directory member record the engine reads. -/
structure Member where
  nick : Option String := none
  userName : Option String := none
deriving DecidableEq, Repr

/-- Configuration fields `checkAndHandleUser` reads (types.ts `PluginConfig`). -/
structure PluginConfig where
  protectedUsers : List String
  defaultGuildMode : String
  retryAttempts : Nat
  adminNotifyMessage : String
  kickNotifyMessage : String
  kickFailMessage : String
deriving Repr

/-- Oracles for the session-scoped effects of one evaluation: the group
context, the quoted message id, the display-name lookup (`none` models a
thrown/failed `getGuildMember`), the outcome of `isUserAdmin`, and the
outcome and error text of each kick attempt. -/
structure CheckEnv where
  guildId : Option String
  messageId : Option String := none
  member : Option Member := none
  isAdmin : Bool := false
  kickOk : Nat → Bool := fun _ => false
  kickErr : Nat → String := fun _ => ""

/-- Observable outcome of one evaluation: the returned `kicked` flag, every
message handed to `session.send` in order, and the number of kick attempts. -/
structure CheckResult where
  kicked : Bool
  sent : List String
  kickAttempts : Nat
deriving DecidableEq, Repr

/-- `member.nick || member.user?.name || user_id`, with a thrown lookup
falling back to the raw id (core.ts lines 223-228). -/
def displayName (env : CheckEnv) (user_id : String) : String :=
  match env.member with
  | none => user_id
  | some m => jsOrUndef m.nick (jsOrUndef m.userName user_id)

/-- Notification template rendering (core.ts lines 233-237): four chained
first-occurrence replacements. -/
def renderNotify (tpl dn user_id reason guildId : String) : String :=
  replaceFirst (replaceFirst (replaceFirst (replaceFirst tpl "{user}" dn)
    "{userId}" user_id) "{reason}" reason) "{guild}" guildId

/-- `h('quote', {id: mid})` serialized and prepended to the message. -/
def quoteTag (mid : String) : String := "<quote id=\"" ++ mid ++ "\"/>"

/-- Failure template rendering (core.ts line 260). -/
def renderKickFail (tpl dn errText : String) : String :=
  replaceFirst (replaceFirst tpl "{user}" dn) "{reason}" errText

/-- The kick retry loop (core.ts lines 251-264), attempt index `i`, `r`
attempts remaining: returns (kicked, messages sent, attempts made). -/
def runKick (ok : Nat → Bool) (err : Nat → String) (tpl dn : String) :
    Nat → Nat → Bool × List String × Nat
  | _, 0 => (false, [], 0)
  | i, r + 1 =>
    if ok i then (true, [], 1)
    else if r = 0 then (false, [renderKickFail tpl dn (err i)], 1)
    else
      let res := runKick ok err tpl dn (i + 1) r
      (res.1, res.2.1, res.2.2 + 1)

/-- `guildSettings[0]?.mode || config.defaultGuildMode` (core.ts line 195). -/
def effectiveMode (cfg : PluginConfig) (db : DB) (guildId : String) : String :=
  jsOrUndef (((db.blacklist_guild_settings.filter
    (fun g => g.guildId == guildId)).head?).map (·.mode)) cfg.defaultGuildMode

/-- `checkAndHandleUser` (core.ts lines 191-280). The post-kick verification
block only logs and is omitted: it has no observable effect in this model. -/
def checkAndHandleUser (cfg : PluginConfig) (env : CheckEnv) (db : DB)
    (user_id : String) : CheckResult :=
  match env.guildId with
  | none => ⟨false, [], 0⟩
  | some guildId =>
    let mode := effectiveMode cfg db guildId
    if mode = "off" then ⟨false, [], 0⟩
    else if cfg.protectedUsers.contains user_id then ⟨false, [], 0⟩
    else if !(db.blacklist_whitelist.filter (fun w => w.user_id == user_id)).isEmpty then
      ⟨false, [], 0⟩
    else
      match (db.blacklist_users.filter
          (fun e => e.user_id == user_id && e.disabled == false)).head? with
      | none => ⟨false, [], 0⟩
      | some entry =>
        if env.isAdmin then ⟨false, [], 0⟩
        else
          let reason := jsOr entry.reason "QQ号黑名单"
          let dn := displayName env user_id
          let notifySent : List String :=
            if mode = "notify" || mode = "both" then
              let tpl := if mode = "notify" then cfg.adminNotifyMessage
                         else cfg.kickNotifyMessage
              let msg := renderNotify tpl dn user_id reason guildId
              [match env.messageId with
               | some mid => quoteTag mid ++ msg
               | none => msg]
            else []
          let kickRes :=
            if mode = "kick" || mode = "both" then
              runKick env.kickOk env.kickErr cfg.kickFailMessage dn 0 cfg.retryAttempts
            else (false, [], 0)
          ⟨kickRes.1, notifySent ++ kickRes.2.1, kickRes.2.2⟩

/-! ## Generic lemmas about the keyed table operations -/

section TableLemmas

variable {α : Type} {key : α → String}

theorem key_repK (r x : α) : key (repK key r x) = key x := by
  unfold repK; split
  · next h => exact (beq_iff_eq.mp h).symm ▸ rfl
  · rfl

theorem key_applyAllK (U : List α) (x : α) : key (applyAllK key U x) = key x := by
  induction U generalizing x with
  | nil => rfl
  | cons r U ih => simpa [applyAllK, List.foldl_cons] using (ih (repK key r x)).trans (key_repK r x)

theorem applyAllK_nil (x : α) : applyAllK key ([] : List α) x = x := rfl

theorem applyAllK_cons (r : α) (U : List α) (x : α) :
    applyAllK key (r :: U) x = applyAllK key U (repK key r x) := rfl

theorem repK_of_key_eq {r z : α} (h : key z = key r) : repK key r z = r := by
  unfold repK; simp [h]

theorem repK_of_key_ne {r z : α} (h : ¬ key z = key r) : repK key r z = z := by
  unfold repK; simp [h]

/-- Pointwise idempotence of the net replacement effect. -/
theorem applyAllK_applyAllK (U : List α) (x : α) :
    applyAllK key U (applyAllK key U x) = applyAllK key U x := by
  induction U generalizing x with
  | nil => rfl
  | cons r U ih =>
    rw [applyAllK_cons, applyAllK_cons]
    by_cases h : key x = key r
    · rw [repK_of_key_eq h, repK_of_key_eq ((key_applyAllK U r).trans rfl)]
    · rw [repK_of_key_ne h, repK_of_key_ne (fun hc => h (((key_applyAllK U x).symm.trans hc))), ih]

theorem hasKey_iff_exists {k : String} {t : List α} :
    hasKey key k t = true ↔ ∃ x ∈ t, key x = k := by
  simp [hasKey, List.any_eq_true]

theorem hasKey_eq_false_iff {k : String} {t : List α} :
    hasKey key k t = false ↔ ∀ x ∈ t, ¬ key x = k := by
  simp [hasKey, List.any_eq_false]

theorem hasKey_map_repK (r : α) (k : String) (t : List α) :
    hasKey key k (t.map (repK key r)) = hasKey key k t := by
  unfold hasKey
  rw [List.any_map]
  congr 1
  funext x
  simp [Function.comp, key_repK]

theorem hasKey_append {k : String} {t₁ t₂ : List α} :
    hasKey key k (t₁ ++ t₂) = (hasKey key k t₁ || hasKey key k t₂) := by
  simp [hasKey, List.any_append]

theorem upsertListK_nil (t : List α) : upsertListK key ([] : List α) t = t := rfl

theorem upsertListK_cons (r : α) (U : List α) (t : List α) :
    upsertListK key (r :: U) t = upsertListK key U (upsertK key r t) := rfl

theorem upsertListK_append (U V : List α) (t : List α) :
    upsertListK key (U ++ V) t = upsertListK key V (upsertListK key U t) := by
  simp [upsertListK, List.foldl_append]

theorem hasKey_upsertK_self (r : α) (t : List α) :
    hasKey key (key r) (upsertK key r t) = true := by
  unfold upsertK; split
  · next h => rwa [hasKey_map_repK]
  · rw [hasKey_append]
    have : hasKey key (key r) [r] = true := by simp [hasKey]
    rw [this, Bool.or_true]

theorem hasKey_upsertK_of {k : String} {t : List α} (r : α)
    (h : hasKey key k t = true) : hasKey key k (upsertK key r t) = true := by
  unfold upsertK; split
  · rwa [hasKey_map_repK]
  · rw [hasKey_append, h, Bool.true_or]

theorem hasKey_upsertListK_of {k : String} {t : List α} (U : List α)
    (h : hasKey key k t = true) : hasKey key k (upsertListK key U t) = true := by
  induction U generalizing t with
  | nil => exact h
  | cons r U ih => exact @upsertListK_cons _ key r U t ▸ ih (hasKey_upsertK_of r h)

theorem hasKey_upsertListK_mem {U : List α} {r : α} (hr : r ∈ U) (t : List α) :
    hasKey key (key r) (upsertListK key U t) = true := by
  induction U generalizing t with
  | nil => cases hr
  | cons a U ih =>
    rw [upsertListK_cons]
    rcases List.mem_cons.mp hr with h | h
    · subst h; exact hasKey_upsertListK_of U (hasKey_upsertK_self r t)
    · exact ih h _

/-- Decomposition of a bulk upsert: the pre-existing rows, transformed in
place, followed by freshly appended rows whose keys were absent from `t`. -/
theorem upsertListK_decomp (U : List α) (t : List α) :
    ∃ extras : List α,
      upsertListK key U t = t.map (applyAllK key U) ++ extras
      ∧ (∀ x ∈ extras, hasKey key (key x) t = false)
      ∧ (∀ x ∈ extras, applyAllK key U x = x)
      ∧ (∀ x ∈ extras, ∃ r ∈ U, key x = key r) := by
  induction U generalizing t with
  | nil =>
    refine ⟨[], ?_, by simp, by simp, by simp⟩
    have : t.map (applyAllK key ([] : List α)) = t.map (fun x => x) :=
      List.map_congr_left (fun x _ => rfl)
    simp [upsertListK, this]
  | cons r U ih =>
    rw [upsertListK_cons]
    unfold upsertK
    by_cases hk : hasKey key (key r) t = true
    · rw [if_pos hk]
      obtain ⟨ex, heq, hfr, hfix, hkeys⟩ := ih (t.map (repK key r))
      refine ⟨ex, ?_, ?_, ?_, ?_⟩
      · rw [heq, List.map_map]
        have : (applyAllK key U) ∘ (repK key r) = applyAllK key (r :: U) := by
          funext x; rfl
        rw [this]
      · intro x hx; have h := hfr x hx; rwa [hasKey_map_repK] at h
      · intro x hx
        have h1 := hfix x hx
        have h2 := hfr x hx
        rw [hasKey_map_repK] at h2
        have hxr : ¬ key x = key r := by
          intro hc; rw [hc, hk] at h2; exact Bool.noConfusion h2
        rw [applyAllK_cons, repK_of_key_ne hxr, h1]
      · intro x hx
        obtain ⟨r', hr', hk'⟩ := hkeys x hx
        exact ⟨r', List.mem_cons_of_mem _ hr', hk'⟩
    · rw [if_neg hk]
      have hkf : hasKey key (key r) t = false := Bool.eq_false_iff.mpr hk
      have hmemt : ∀ x ∈ t, ¬ key x = key r := hasKey_eq_false_iff.mp hkf
      obtain ⟨ex, heq, hfr, hfix, hkeys⟩ := ih (t ++ [r])
      have hmap : t.map (applyAllK key U) = t.map (applyAllK key (r :: U)) :=
        List.map_congr_left (fun x hx => by
          rw [applyAllK_cons, repK_of_key_ne (hmemt x hx)])
      refine ⟨applyAllK key U r :: ex, ?_, ?_, ?_, ?_⟩
      · rw [heq, List.map_append, hmap]
        simp
      · intro x hx
        rcases List.mem_cons.mp hx with h | h
        · subst h; rw [@key_applyAllK _ key U r]; exact hkf
        · have h' := hfr x h
          rw [hasKey_append, Bool.or_eq_false_iff] at h'
          exact h'.1
      · intro x hx
        rcases List.mem_cons.mp hx with h | h
        · subst h
          rw [applyAllK_cons, repK_of_key_eq (key_applyAllK U r)]
        · have h1 := hfix x h
          have h2 := hfr x h
          rw [hasKey_append, Bool.or_eq_false_iff] at h2
          have hxr : ¬ key x = key r := by
            have := hasKey_eq_false_iff.mp h2.2
            exact fun hc => this r (List.mem_singleton_self r) hc.symm
          rw [applyAllK_cons, repK_of_key_ne hxr, h1]
      · intro x hx
        rcases List.mem_cons.mp hx with h | h
        · subst h; exact ⟨r, List.mem_cons_self r U, key_applyAllK U r⟩
        · obtain ⟨r', hr', hk'⟩ := hkeys x h
          exact ⟨r', List.mem_cons_of_mem _ hr', hk'⟩

/-- Every row of a bulk-upsert result is a fixed point of the net replacement
effect of that same row list. -/
theorem applyAllK_of_mem_upsertListK {U t : List α} {x : α}
    (hx : x ∈ upsertListK key U t) : applyAllK key U x = x := by
  obtain ⟨ex, heq, _, hfix, _⟩ := @upsertListK_decomp _ key U t
  rw [heq] at hx
  rcases List.mem_append.mp hx with h | h
  · obtain ⟨y, _, rfl⟩ := List.mem_map.mp h
    exact applyAllK_applyAllK U y
  · exact hfix x h

/-- Replaying keyed upserts followed by keyed deletes is idempotent. -/
theorem removeKeys_upsert_idem (U : List α) (D : List String) (t : List α) :
    removeKeysK key D (upsertListK key U (removeKeysK key D (upsertListK key U t)))
      = removeKeysK key D (upsertListK key U t) := by
  set s := upsertListK key U t with hs
  set s' := removeKeysK key D s with hs'
  obtain ⟨ex, heq, hfr, hfix, hkeys⟩ := @upsertListK_decomp _ key U s'
  have hsub : ∀ x ∈ s', x ∈ s := fun x hx => List.mem_of_mem_filter hx
  have hmap : s'.map (applyAllK key U) = s' := by
    have h1 : s'.map (applyAllK key U) = s'.map (fun x => x) :=
      List.map_congr_left (fun x hx => applyAllK_of_mem_upsertListK (hs ▸ hsub x hx))
    rw [h1, List.map_id']
  have hex : ∀ x ∈ ex, D.contains (key x) = true := by
    intro x hx
    have hkf := hfr x hx
    obtain ⟨r, hrU, hkx⟩ := hkeys x hx
    have hksx : hasKey key (key x) s = true := by
      rw [hkx, hs]; exact hasKey_upsertListK_mem hrU t
    by_contra hc
    have hcf : D.contains (key x) = false := Bool.eq_false_iff.mpr hc
    obtain ⟨y, hy, hky⟩ := hasKey_iff_exists.mp hksx
    have hy' : y ∈ s' := by
      rw [hs']
      exact List.mem_filter.mpr ⟨hy, by rw [hky, hcf]; rfl⟩
    have : hasKey key (key x) s' = true := hasKey_iff_exists.mpr ⟨y, hy', hky⟩
    rw [this] at hkf
    exact Bool.noConfusion hkf
  have hexnil : removeKeysK key D ex = [] := by
    unfold removeKeysK
    rw [List.filter_eq_nil_iff]
    intro x hx
    rw [hex x hx]
    simp
  have hfilt : removeKeysK key D s' = s' := by
    rw [hs']
    unfold removeKeysK
    rw [List.filter_filter]
    simp
  rw [heq, hmap]
  unfold removeKeysK at *
  rw [List.filter_append]
  change (List.filter _ s') ++ _ = _
  rw [hfilt, hexnil, List.append_nil]

theorem filter_head_upsertK {α : Type} {key : α → String} (r : α) (t : List α) :
    ((upsertK key r t).filter (fun x => key x == key r)).head? = some r := by
  unfold upsertK; split
  · next h =>
    induction t with
    | nil => simp [hasKey] at h
    | cons y ys ih =>
      by_cases hy : key y = key r
      · simp [repK_of_key_eq hy, List.filter_cons, hy]
      · have hys : hasKey key (key r) ys = true := by
          unfold hasKey at h
          rw [List.any_cons] at h
          rcases (Bool.or_eq_true _ _).mp h with hcase | hcase
          · exact absurd (beq_iff_eq.mp hcase) hy
          · exact hcase
        simpa [repK_of_key_ne hy, List.filter_cons, hy] using ih hys
  · next h =>
    have h' : hasKey key (key r) t = false := Bool.eq_false_iff.mpr h
    have hnil : t.filter (fun x => key x == key r) = [] := by
      rw [List.filter_eq_nil_iff]
      intro x hx
      simpa using hasKey_eq_false_iff.mp h' x hx
    simp [List.filter_append, hnil]

end TableLemmas

/-! ## Lemmas about the synchronization engine -/

theorem runOps_noFail (ops : List WriteOp) (k : Nat) (db : DB) :
    runOps (fun _ => false) k ops db = .ok (applyOps ops db) := by
  induction ops generalizing k db with
  | nil => rfl
  | cons op rest ih => simpa [runOps, applyOps, List.foldl_cons] using ih (k + 1) (applyOp op db)

theorem applyOps_append (a b : List WriteOp) (db : DB) :
    applyOps (a ++ b) db = applyOps b (applyOps a db) := by
  simp [applyOps, List.foldl_append]

theorem applyOp_meta_of_safe {op : WriteOp} (h : metaSafe op) (db : DB) :
    (applyOp op db).blacklist_meta = db.blacklist_meta := by
  cases op <;> first | rfl | exact absurd h (fun hc => hc)

theorem syncPlan_metaSafe (resp : SyncResponse) :
    ∀ op ∈ (syncPlan resp).1, metaSafe op := by
  intro op hop
  unfold syncPlan at hop
  by_cases h1 : resp.strategy = "full_replace"
  · rw [if_pos h1] at hop
    simp only [List.mem_append] at hop
    rcases hop with (hop | hop) | hop
    · rcases hop with _ | ⟨_, (_ | ⟨_, h⟩)⟩ <;> trivial
    · split at hop
      · cases hop
      · obtain ⟨_, _, rfl⟩ := List.mem_map.mp hop; trivial
    · split at hop
      · cases hop
      · obtain ⟨_, _, rfl⟩ := List.mem_map.mp hop; trivial
  · rw [if_neg h1] at hop
    by_cases h2 : resp.strategy = "incremental"
    · rw [if_pos h2] at hop
      simp only [List.mem_append] at hop
      rcases hop with ((hop | hop) | hop) | hop <;>
        · split at hop
          · cases hop
          · rcases hop with _ | ⟨_, h⟩ <;> trivial
    · rw [if_neg h2] at hop
      cases hop

theorem runOps_error_meta (fail : Nat → Bool) (lastOp : WriteOp) :
    ∀ (ops : List WriteOp) (k : Nat) (db db2 : DB),
      runOps fail k (ops ++ [lastOp]) db = .error db2 →
      (∀ op ∈ ops, metaSafe op) →
      db2.blacklist_meta = db.blacklist_meta := by
  intro ops
  induction ops with
  | nil =>
    intro k db db2 h _
    rw [List.nil_append] at h
    by_cases hf : fail k = true
    · unfold runOps at h
      rw [if_pos hf] at h
      cases h; rfl
    · unfold runOps at h
      rw [if_neg hf] at h
      unfold runOps at h
      cases h
  | cons op rest ih =>
    intro k db db2 h hsafe
    rw [List.cons_append] at h
    by_cases hf : fail k = true
    · unfold runOps at h
      rw [if_pos hf] at h
      cases h; rfl
    · unfold runOps at h
      rw [if_neg hf] at h
      have hmeta := ih (k + 1) (applyOp op db) db2 h
        (fun o ho => hsafe o (List.mem_cons_of_mem _ ho))
      rw [hmeta, applyOp_meta_of_safe (hsafe op (List.mem_cons_self op rest))]

theorem applyOps_cons (op : WriteOp) (ops : List WriteOp) (db : DB) :
    applyOps (op :: ops) db = applyOps ops (applyOp op db) := rfl

theorem chunkListAux_flatten {α : Type} (n : Nat) (hn : 1 ≤ n) :
    ∀ (fuel : Nat) (l : List α), l.length ≤ fuel → (chunkListAux n fuel l).flatten = l := by
  intro fuel
  induction fuel with
  | zero =>
    intro l hl
    cases l with
    | nil => rfl
    | cons x xs => simp at hl
  | succ fuel ih =>
    intro l hl
    cases l with
    | nil => rfl
    | cons x xs =>
      obtain ⟨m, rfl⟩ : ∃ m, n = m + 1 := ⟨n - 1, by omega⟩
      show ((x :: xs).take (m + 1) :: chunkListAux (m + 1) fuel (xs.drop (m + 1 - 1))).flatten
        = x :: xs
      have hlen : (xs.drop (m + 1 - 1)).length ≤ fuel := by
        simp only [List.length_drop]
        simp only [List.length_cons] at hl
        omega
      rw [List.flatten_cons, ih (xs.drop (m + 1 - 1)) hlen]
      simp only [Nat.add_sub_cancel]
      rw [List.take_succ_cons, List.cons_append, List.take_append_drop]

theorem chunkList_flatten {α : Type} (n : Nat) (hn : 1 ≤ n) (l : List α) :
    (chunkList n l).flatten = l :=
  chunkListAux_flatten n hn l.length l le_rfl

theorem applyOps_upsertUsers_chunks (chunks : List (List BlacklistEntry)) (db : DB) :
    applyOps (chunks.map WriteOp.upsertUsers) db =
      { db with blacklist_users :=
          upsertListK (·.user_id) chunks.flatten db.blacklist_users } := by
  induction chunks generalizing db with
  | nil => rfl
  | cons c cs ih =>
    rw [List.map_cons, applyOps_cons, ih]
    simp [applyOp, List.flatten_cons, upsertListK_append]

theorem applyOps_upsertWhitelist_chunks (chunks : List (List WhitelistEntry)) (db : DB) :
    applyOps (chunks.map WriteOp.upsertWhitelist) db =
      { db with blacklist_whitelist :=
          upsertListK (·.user_id) chunks.flatten db.blacklist_whitelist } := by
  induction chunks generalizing db with
  | nil => rfl
  | cons c cs ih =>
    rw [List.map_cons, applyOps_cons, ih]
    simp [applyOp, List.flatten_cons, upsertListK_append]

theorem applyOps_syncPlan_full (resp : SyncResponse) (db : DB)
    (h : resp.strategy = "full_replace") :
    applyOps (syncPlan resp).1 db =
      { db with
          blacklist_users := upsertListK (·.user_id) resp.data.blacklistData [],
          blacklist_whitelist := upsertListK (·.user_id) resp.data.whitelistData [] }
    ∧ (syncPlan resp).2 = !resp.data.blacklistData.isEmpty := by
  unfold syncPlan
  rw [if_pos h]
  refine ⟨?_, rfl⟩
  rw [applyOps_append, applyOps_append]
  have hclear : applyOps [WriteOp.clearUsers, WriteOp.clearWhitelist] db =
      { db with blacklist_users := [], blacklist_whitelist := [] } := rfl
  rw [hclear]
  by_cases hbl : resp.data.blacklistData.isEmpty
  · have hbl' : resp.data.blacklistData = [] := List.isEmpty_iff.mp hbl
    rw [if_pos hbl]
    by_cases hwl : resp.data.whitelistData.isEmpty
    · have hwl' : resp.data.whitelistData = [] := List.isEmpty_iff.mp hwl
      rw [if_pos hwl]
      simp [applyOps, hbl', hwl', upsertListK_nil]
    · rw [if_neg hwl, applyOps_upsertWhitelist_chunks,
        chunkList_flatten 100 (by omega), hbl']
      simp [applyOps, upsertListK_nil]
  · rw [if_neg hbl, applyOps_upsertUsers_chunks, chunkList_flatten 100 (by omega)]
    by_cases hwl : resp.data.whitelistData.isEmpty
    · have hwl' : resp.data.whitelistData = [] := List.isEmpty_iff.mp hwl
      rw [if_pos hwl]
      simp [applyOps, hwl', upsertListK_nil]
    · rw [if_neg hwl, applyOps_upsertWhitelist_chunks, chunkList_flatten 100 (by omega)]

theorem applyOps_condUpsertUsers (u : List BlacklistEntry) (db : DB) :
    applyOps (if u.isEmpty then [] else [WriteOp.upsertUsers u]) db =
      { db with blacklist_users := upsertListK (·.user_id) u db.blacklist_users } := by
  by_cases hu : u.isEmpty
  · have : u = [] := List.isEmpty_iff.mp hu
    subst this
    rw [if_pos hu]
    rfl
  · rw [if_neg hu]
    rfl

theorem applyOps_condDeleteUsers (d : List String) (db : DB) :
    applyOps (if d.isEmpty then [] else [WriteOp.deleteUsers d]) db =
      { db with blacklist_users := removeKeysK (·.user_id) d db.blacklist_users } := by
  by_cases hd : d.isEmpty
  · have : d = [] := List.isEmpty_iff.mp hd
    subst this
    rw [if_pos hd]
    show db = _
    simp [removeKeysK]
  · rw [if_neg hd]
    rfl

theorem applyOps_condUpsertWhitelist (u : List WhitelistEntry) (db : DB) :
    applyOps (if u.isEmpty then [] else [WriteOp.upsertWhitelist u]) db =
      { db with blacklist_whitelist :=
          upsertListK (·.user_id) u db.blacklist_whitelist } := by
  by_cases hu : u.isEmpty
  · have : u = [] := List.isEmpty_iff.mp hu
    subst this
    rw [if_pos hu]
    rfl
  · rw [if_neg hu]
    rfl

theorem applyOps_condDeleteWhitelist (d : List String) (db : DB) :
    applyOps (if d.isEmpty then [] else [WriteOp.deleteWhitelist d]) db =
      { db with blacklist_whitelist :=
          removeKeysK (·.user_id) d db.blacklist_whitelist } := by
  by_cases hd : d.isEmpty
  · have : d = [] := List.isEmpty_iff.mp hd
    subst this
    rw [if_pos hd]
    show db = _
    simp [removeKeysK]
  · rw [if_neg hd]
    rfl

theorem applyOps_syncPlan_incr (resp : SyncResponse) (db : DB)
    (h : resp.strategy = "incremental") :
    applyOps (syncPlan resp).1 db =
      { db with
          blacklist_users := removeKeysK (·.user_id) resp.data.deletesData
            (upsertListK (·.user_id) resp.data.upsertsData db.blacklist_users),
          blacklist_whitelist := removeKeysK (·.user_id) resp.data.wlDeletesData
            (upsertListK (·.user_id) resp.data.wlUpsertsData db.blacklist_whitelist) }
    ∧ (syncPlan resp).2 = !resp.data.upsertsData.isEmpty := by
  have hne : resp.strategy ≠ "full_replace" := by rw [h]; decide
  unfold syncPlan
  rw [if_neg hne, if_pos h]
  refine ⟨?_, rfl⟩
  rw [applyOps_append, applyOps_append, applyOps_append,
    applyOps_condUpsertUsers, applyOps_condDeleteUsers,
    applyOps_condUpsertWhitelist, applyOps_condDeleteWhitelist]

/-! ## Lemmas about the offline request queue -/

theorem insertByCreated_perm (x : OfflineRequest) (l : List OfflineRequest) :
    (insertByCreated x l).Perm (x :: l) := by
  induction l with
  | nil => exact List.Perm.refl _
  | cons y ys ih =>
    unfold insertByCreated
    split
    · exact List.Perm.refl _
    · exact (List.Perm.cons y ih).trans (List.Perm.swap x y ys)

theorem sortByCreatedAt_perm (l : List OfflineRequest) :
    (sortByCreatedAt l).Perm l := by
  induction l with
  | nil => exact List.Perm.refl _
  | cons x xs ih =>
    exact (insertByCreated_perm x (sortByCreatedAt xs)).trans (List.Perm.cons x ih)

theorem drainBatch_sublist_mem {db : DB} {it : OfflineRequest}
    (h : it ∈ drainBatch db) : it ∈ db.blacklist_request_queue :=
  (sortByCreatedAt_perm db.blacklist_request_queue).mem_iff.mp
    (List.mem_of_mem_take h)

theorem drainBatch_ids_nodup {db : DB}
    (h : (db.blacklist_request_queue.map (·.id)).Nodup) :
    ((drainBatch db).map (·.id)).Nodup := by
  have hperm : ((sortByCreatedAt db.blacklist_request_queue).map (·.id)).Perm
      (db.blacklist_request_queue.map (·.id)) :=
    (sortByCreatedAt_perm db.blacklist_request_queue).map _
  have hsorted : ((sortByCreatedAt db.blacklist_request_queue).map (·.id)).Nodup :=
    hperm.nodup_iff.mpr h
  exact ((List.take_sublist _ _).map _).nodup hsorted

/-- With an all-false store-failure oracle, a drain run is the simple loop
`drainGo`. -/
theorem drainItems_noFail (dlv : String → Option DeliverError) :
    ∀ (items : List OfflineRequest) (k : Nat) (db : DB) (acc : List String) (ops : Nat),
      (drainItems dlv (fun _ => false) items k db acc ops).db = (drainGo dlv items db).1
      ∧ (drainItems dlv (fun _ => false) items k db acc ops).attempts
          = acc.reverse ++ (drainGo dlv items db).2 := by
  intro items
  induction items with
  | nil => intro k db acc ops; exact ⟨rfl, by simp [drainItems, drainGo]⟩
  | cons it rest ih =>
    intro k db acc ops
    unfold drainItems drainGo
    split
    · simpa using ih (k + 1) _ acc (ops + 1)
    · split
      · have h := ih (k + 1)
          { db with blacklist_request_queue := removeId it.id db.blacklist_request_queue }
          (it.id :: acc) (ops + 1)
        exact ⟨by simpa using h.1, by simpa using h.2⟩
      · split
        · have h := ih k db (it.id :: acc) ops
          exact ⟨by simpa using h.1, by simpa using h.2⟩
        · have h := ih (k + 1)
            { db with blacklist_request_queue :=
                setRetry it.id (it.retryCount + 1) db.blacklist_request_queue }
            (it.id :: acc) (ops + 1)
          exact ⟨by simpa using h.1, by simpa using h.2⟩

/-- A delivery attempt is made for exactly the fetched items whose retry count
is within the dead-letter budget, in fetch order, regardless of the store
state or the delivery outcomes. -/
theorem drainGo_attempts (dlv : String → Option DeliverError) :
    ∀ (items : List OfflineRequest) (db : DB),
      (drainGo dlv items db).2
        = items.filterMap (fun it => if it.retryCount ≤ 5 then some it.id else none) := by
  intro items
  induction items with
  | nil => intro db; rfl
  | cons it rest ih =>
    intro db
    unfold drainGo
    by_cases hdead : it.retryCount > 5
    · rw [if_pos hdead]
      have : ¬ it.retryCount ≤ 5 := by omega
      simp [List.filterMap_cons, this, ih]
    · rw [if_neg hdead]
      have hle : it.retryCount ≤ 5 := by omega
      match hd : dlv it.id with
      | none => simp [List.filterMap_cons, hle, ih]
      | some e =>
        by_cases hnet : isNetworkError e
        · simp [hd, hnet, List.filterMap_cons, hle, ih]
        · simp [hd, hnet, List.filterMap_cons, hle, ih]

theorem filter_removeId (j t : String) (q : List OfflineRequest) :
    (removeId j q).filter (fun x => x.id == t)
      = (q.filter (fun x => x.id == t)).filter (fun x => !(x.id == j)) := by
  unfold removeId
  exact List.filter_comm _ _ q

theorem filter_removeId_other {j t : String} (h : j ≠ t) (q : List OfflineRequest) :
    (removeId j q).filter (fun x => x.id == t) = q.filter (fun x => x.id == t) := by
  rw [filter_removeId]
  apply List.filter_eq_self.mpr
  intro x hx
  have hxt : x.id = t := by simpa using (List.mem_filter.mp hx).2
  have : (x.id == j) = false := by
    rw [hxt]
    exact beq_eq_false_iff_ne.mpr (Ne.symm h)
  rw [this]
  rfl

theorem filter_removeId_self (t : String) (q : List OfflineRequest) :
    (removeId t q).filter (fun x => x.id == t) = [] := by
  rw [filter_removeId, List.filter_eq_nil_iff]
  intro x hx
  have : x.id = t := by simpa using (List.mem_filter.mp hx).2
  simp [this]

theorem filter_map_of_pres {α : Type} (f : α → α) (p : α → Bool)
    (hp : ∀ x, p (f x) = p x) :
    ∀ q : List α, (q.map f).filter p = (q.filter p).map f := by
  intro q
  induction q with
  | nil => rfl
  | cons y ys ih =>
    rw [List.map_cons, List.filter_cons, List.filter_cons, hp y]
    by_cases hy : p y = true
    · simp [hy, ih]
    · simp [hy, ih]

theorem filter_setRetry (j t : String) (n : Nat) (q : List OfflineRequest) :
    (setRetry j n q).filter (fun x => x.id == t)
      = (q.filter (fun x => x.id == t)).map
          (fun x => if x.id == j then { x with retryCount := n } else x) := by
  unfold setRetry
  exact filter_map_of_pres _ _ (fun x => by split <;> rfl) q

theorem filter_setRetry_other {j t : String} (h : j ≠ t) (n : Nat)
    (q : List OfflineRequest) :
    (setRetry j n q).filter (fun x => x.id == t) = q.filter (fun x => x.id == t) := by
  rw [filter_setRetry]
  have hfix : ∀ x ∈ q.filter (fun x => x.id == t),
      (if x.id == j then { x with retryCount := n } else x) = x := by
    intro x hx
    have hxt : x.id = t := by simpa using (List.mem_filter.mp hx).2
    have : (x.id == j) = false := by
      rw [hxt]
      exact beq_eq_false_iff_ne.mpr (Ne.symm h)
    rw [this]
    rfl
  rw [List.map_congr_left hfix, List.map_id']

/-- Items whose id differs from `t` never touch the rows with id `t`. -/
theorem drainGo_filter_untouched (dlv : String → Option DeliverError) (t : String) :
    ∀ (items : List OfflineRequest) (db : DB),
      (∀ x ∈ items, x.id ≠ t) →
      ((drainGo dlv items db).1).blacklist_request_queue.filter (fun x => x.id == t)
        = db.blacklist_request_queue.filter (fun x => x.id == t) := by
  intro items
  induction items with
  | nil => intro db _; rfl
  | cons it rest ih =>
    intro db hne
    have hit : it.id ≠ t := hne it (List.mem_cons_self it rest)
    have hrest : ∀ x ∈ rest, x.id ≠ t := fun x hx => hne x (List.mem_cons_of_mem _ hx)
    unfold drainGo
    split
    · rw [ih _ hrest]
      exact filter_removeId_other hit _
    · split
      · rw [ih _ hrest]
        exact filter_removeId_other hit _
      · split
        · exact ih db hrest
        · rw [ih _ hrest]
          exact filter_setRetry_other hit _ _

/-- Once every row with id `t` is gone, no later item processing brings one
back. -/
theorem drainGo_filter_nil (dlv : String → Option DeliverError) (t : String) :
    ∀ (items : List OfflineRequest) (db : DB),
      db.blacklist_request_queue.filter (fun x => x.id == t) = [] →
      ((drainGo dlv items db).1).blacklist_request_queue.filter (fun x => x.id == t)
        = [] := by
  intro items
  induction items with
  | nil => intro db h; exact h
  | cons it rest ih =>
    intro db h
    unfold drainGo
    split
    · exact ih _ (by rw [filter_removeId, h]; rfl)
    · split
      · exact ih _ (by rw [filter_removeId, h]; rfl)
      · split
        · exact ih db h
        · exact ih _ (by rw [filter_setRetry, h]; rfl)

theorem nodup_key_eq {α β : Type} {f : α → β} {l : List α} (h : (l.map f).Nodup)
    {x y : α} (hx : x ∈ l) (hy : y ∈ l) (hf : f x = f y) : x = y := by
  induction l with
  | nil => cases hx
  | cons a l ih =>
    rw [List.map_cons, List.nodup_cons] at h
    rcases List.mem_cons.mp hx with rfl | hx'
    · rcases List.mem_cons.mp hy with rfl | hy'
      · rfl
      · exact absurd (hf ▸ List.mem_map_of_mem f hy') h.1
    · rcases List.mem_cons.mp hy with rfl | hy'
      · exact absurd (hf ▸ List.mem_map_of_mem f hx') h.1
      · exact ih h.2 hx' hy'

theorem filter_eq_single_of_nodup {l : List OfflineRequest} {it : OfflineRequest}
    (h : (l.map (·.id)).Nodup) (hm : it ∈ l) :
    l.filter (fun x => x.id == it.id) = [it] := by
  induction l with
  | nil => cases hm
  | cons a l ih =>
    rw [List.map_cons, List.nodup_cons] at h
    rcases List.mem_cons.mp hm with rfl | hm'
    · rw [List.filter_cons_of_pos (by simp)]
      have : l.filter (fun x => x.id == it.id) = [] := by
        rw [List.filter_eq_nil_iff]
        intro x hx
        simp only [beq_iff_eq]
        exact fun hc => h.1 (hc ▸ List.mem_map_of_mem _ hx)
      rw [this]
    · have hne : ¬ a.id = it.id := by
        intro hc
        exact h.1 (hc ▸ List.mem_map_of_mem _ hm')
      rw [List.filter_cons_of_neg (by simpa using hne)]
      exact ih h.2 hm'

/-- Without store failures, `processOfflineQueue` with a free guard is exactly
the `drainGo` run over the fetched batch. -/
theorem processOfflineQueue_noFail (dlv : String → Option DeliverError) (db : DB) :
    (processOfflineQueue dlv (fun _ => false) false db).2.db
        = (drainGo dlv (drainBatch db) db).1
    ∧ (processOfflineQueue dlv (fun _ => false) false db).2.attempts
        = (drainGo dlv (drainBatch db) db).2 := by
  unfold processOfflineQueue
  simp only [if_neg (Bool.false_ne_true), Bool.false_eq_true, if_false]
  by_cases hb : (drainBatch db).isEmpty
  · have : drainBatch db = [] := List.isEmpty_iff.mp hb
    rw [this]
    simp [hb, drainGo]
  · simp only [hb, if_false]
    have h := drainItems_noFail dlv (drainBatch db) 2 db [] 2
    exact ⟨h.1, by simpa using h.2⟩

/-! ## Lemmas about the moderation decision engine -/

theorem runKick_all_fail (ok : Nat → Bool) (err : Nat → String) (tpl dn : String)
    (hok : ∀ j, ok j = false) :
    ∀ (r i : Nat), runKick ok err tpl dn i (r + 1)
      = (false, [renderKickFail tpl dn (err (i + r))], r + 1) := by
  intro r
  induction r with
  | zero =>
    intro i
    unfold runKick
    rw [hok i]
    simp
  | succ r ih =>
    intro i
    unfold runKick
    rw [hok i]
    have harith : i + (r + 1) = (i + 1) + r := by omega
    simp [harith, ih (i + 1)]

theorem runKick_true_exists (ok : Nat → Bool) (err : Nat → String) (tpl dn : String) :
    ∀ (r i : Nat), (runKick ok err tpl dn i r).1 = true →
      ∃ j, i ≤ j ∧ j < i + r ∧ ok j = true := by
  intro r
  induction r with
  | zero =>
    intro i h
    exact absurd h (by simp [runKick])
  | succ r ih =>
    intro i h
    unfold runKick at h
    by_cases hoki : ok i = true
    · exact ⟨i, le_rfl, by omega, hoki⟩
    · rw [if_neg hoki] at h
      by_cases hr : r = 0
      · rw [if_pos hr] at h
        simp at h
      · rw [if_neg hr] at h
        obtain ⟨j, h1, h2, h3⟩ := ih (i + 1) h
        exact ⟨j, by omega, by omega, h3⟩

/-- `evaluate_and_act` reports a removal only when some kick attempt inside
the retry budget actually succeeded. -/
theorem checkAndHandleUser_kicked (cfg : PluginConfig) (env : CheckEnv) (db : DB)
    (uid : String) (h : (checkAndHandleUser cfg env db uid).kicked = true) :
    ∃ i, i < cfg.retryAttempts ∧ env.kickOk i = true := by
  unfold checkAndHandleUser at h
  rcases hge : env.guildId with _ | g
  all_goals rw [hge] at h
  · simp at h
  · simp at h
    split at h
    · simp at h
    · split at h
      · simp at h
      · split at h
        · simp at h
        · split at h
          · simp at h
          · split at h
            · simp at h
            · simp at h
              split at h
              · obtain ⟨j, _, hj, hok⟩ :=
                  runKick_true_exists env.kickOk env.kickErr cfg.kickFailMessage
                    (displayName env uid) cfg.retryAttempts 0 h
                exact ⟨j, by simpa using hj, hok⟩
              · simp at h

theorem drainGo_append (dlv : String → Option DeliverError) :
    ∀ (as bs : List OfflineRequest) (db : DB),
      (drainGo dlv (as ++ bs) db).1 = (drainGo dlv bs (drainGo dlv as db).1).1 := by
  intro as
  induction as with
  | nil => intro bs db; rfl
  | cons it rest ih =>
    intro bs db
    rw [List.cons_append]
    simp only [drainGo]
    by_cases hdead : it.retryCount > 5
    · simp only [if_pos hdead]
      exact ih bs _
    · simp only [if_neg hdead]
      cases hd : dlv it.id with
      | none =>
        simp only [hd]
        exact ih bs _
      | some e =>
        simp only [hd]
        by_cases hnet : isNetworkError e = true
        · simp only [hnet, if_true]
          exact ih bs db
        · simp only [if_neg hnet]
          exact ih bs _

theorem getMetaValue_upsert (db : DB) (k v : String) :
    getMetaValue
      { db with blacklist_meta := upsertK (·.key) ⟨k, v⟩ db.blacklist_meta } k
      = some v := by
  unfold getMetaValue
  have h := @filter_head_upsertK MetaEntry (fun m => m.key)
    ⟨k, v⟩ db.blacklist_meta
  dsimp only at h
  rw [h]
  rfl

/-! ## Claim theorems -/

/-- C2: whenever any exception occurs during the network call or the write
sequence of a sync run, the whole attempt aborts, `syncBlacklist` returns
`false` with whatever store state was reached, and the `sync_revision` marker
is not advanced. -/
theorem claim_C2_sync_exception_aborts (net : Option SyncResponse)
    (fail : Nat → Bool) (db db2 : DB)
    (h : syncAttempt net fail db = .error db2) :
    syncBlacklist net fail db = (false, db2)
    ∧ db2.blacklist_meta = db.blacklist_meta
    ∧ getMetaValue db2 "sync_revision" = getMetaValue db "sync_revision" := by
  have hmeta : db2.blacklist_meta = db.blacklist_meta := by
    cases net with
    | none =>
      cases h; rfl
    | some resp =>
      have hdef : syncAttempt (some resp) fail db
          = (if resp.strategy = "up-to-date" then Except.ok (false, db)
             else
               match runOps fail 0 ((syncPlan resp).1
                   ++ [WriteOp.putMeta "sync_revision" resp.newRevision]) db with
               | .ok d => .ok ((syncPlan resp).2, d)
               | .error d => .error d) := rfl
      rw [hdef] at h
      by_cases hup : resp.strategy = "up-to-date"
      · rw [if_pos hup] at h
        cases h
      · rw [if_neg hup] at h
        cases hr : runOps fail 0
            ((syncPlan resp).1 ++ [WriteOp.putMeta "sync_revision" resp.newRevision]) db with
        | ok d =>
          rw [hr] at h
          cases h
        | error d =>
          rw [hr] at h
          cases h
          exact runOps_error_meta fail _ (syncPlan resp).1 0 db db2 hr
            (syncPlan_metaSafe resp)
  refine ⟨?_, hmeta, ?_⟩
  · unfold syncBlacklist
    rw [h]
  · unfold getMetaValue
    rw [hmeta]

/-- C2 witness: a store failure at the first write of a full replace aborts
the run, returns `false`, and leaves `sync_revision` untouched. -/
theorem claim_C2_witness :
    syncBlacklist
        (some ⟨"full_replace", "r1",
          .legacy [{ user_id := "u", reason := "x", disabled := false }]⟩)
        (fun k => k == 0)
        ⟨[], [], [], [⟨"sync_revision", ""⟩], []⟩
      = (false, ⟨[], [], [], [⟨"sync_revision", ""⟩], []⟩)
    ∧ (⟨[], [], [], [⟨"sync_revision", ""⟩], []⟩ : DB).blacklist_meta
        = (⟨[], [], [], [⟨"sync_revision", ""⟩], []⟩ : DB).blacklist_meta
    ∧ getMetaValue ⟨[], [], [], [⟨"sync_revision", ""⟩], []⟩ "sync_revision"
        = getMetaValue ⟨[], [], [], [⟨"sync_revision", ""⟩], []⟩ "sync_revision" :=
  claim_C2_sync_exception_aborts _ _ _ _ rfl

/-- C3: a no-failure `full_replace` run replaces both local collections with
exactly the delivered sets (regardless of the prior local rows), persists the
new revision, and returns whether the delivered block list was nonempty. -/
theorem claim_C3_full_replace (resp : SyncResponse) (db : DB)
    (h : resp.strategy = "full_replace") :
    syncBlacklist (some resp) (fun _ => false) db =
      (!resp.data.blacklistData.isEmpty,
       { db with
           blacklist_users := upsertListK (·.user_id) resp.data.blacklistData [],
           blacklist_whitelist := upsertListK (·.user_id) resp.data.whitelistData [],
           blacklist_meta := upsertK (·.key) ⟨"sync_revision", resp.newRevision⟩
             db.blacklist_meta }) := by
  have hne : ¬ resp.strategy = "up-to-date" := by rw [h]; decide
  simp only [syncBlacklist, syncAttempt, if_neg hne, runOps_noFail]
  rw [applyOps_append, (applyOps_syncPlan_full resp db h).1,
    (applyOps_syncPlan_full resp db h).2]
  rfl

/-- C3 witness: the spec scenario — empty local revision, one delivered row,
`newRevision = "r1"` — yields exactly the u1 row, an empty exempt collection,
revision `"r1"`, and result `true`. -/
theorem claim_C3_witness :
    syncBlacklist
        (some ⟨"full_replace", "r1",
          .obj (some [{ user_id := "u1", reason := "spam", disabled := false }])
            none none none none none⟩)
        (fun _ => false)
        ⟨[{ user_id := "old", reason := "stale", disabled := false }],
         [{ user_id := "w0" }], [], [⟨"sync_revision", ""⟩], []⟩
      = (true,
         ⟨[{ user_id := "u1", reason := "spam", disabled := false }], [], [],
          [⟨"sync_revision", "r1"⟩], []⟩) :=
  (claim_C3_full_replace _ _ rfl).trans (by decide)

/-- C10: a response with a strategy other than `up-to-date`, `full_replace`
and `incremental` changes neither local collection, yet still overwrites
`sync_revision` with the delivered revision and returns `false`. -/
theorem claim_C10_unknown_strategy (resp : SyncResponse) (db : DB)
    (h1 : resp.strategy ≠ "up-to-date") (h2 : resp.strategy ≠ "full_replace")
    (h3 : resp.strategy ≠ "incremental") :
    syncBlacklist (some resp) (fun _ => false) db =
      (false,
       { db with
           blacklist_meta := upsertK (·.key) ⟨"sync_revision", resp.newRevision⟩
             db.blacklist_meta })
    ∧ getMetaValue (syncBlacklist (some resp) (fun _ => false) db).2 "sync_revision"
        = some resp.newRevision := by
  have hrun : syncBlacklist (some resp) (fun _ => false) db =
      (false,
       { db with
           blacklist_meta := upsertK (·.key) ⟨"sync_revision", resp.newRevision⟩
             db.blacklist_meta }) := by
    simp only [syncBlacklist, syncAttempt, if_neg h1, runOps_noFail]
    unfold syncPlan
    rw [if_neg h2, if_neg h3]
    rfl
  refine ⟨hrun, ?_⟩
  rw [hrun]
  exact getMetaValue_upsert db "sync_revision" resp.newRevision

/-- C10 witness at strategy `"weird"`. -/
theorem claim_C10_witness :
    syncBlacklist (some ⟨"weird", "r2", .legacy []⟩) (fun _ => false)
        ⟨[{ user_id := "u", reason := "x", disabled := false }], [{ user_id := "w" }],
         [], [⟨"sync_revision", "r0"⟩], []⟩
      = (false,
         ⟨[{ user_id := "u", reason := "x", disabled := false }], [{ user_id := "w" }],
          [], [⟨"sync_revision", "r2"⟩], []⟩) :=
  ((claim_C10_unknown_strategy ⟨"weird", "r2", .legacy []⟩
    ⟨[{ user_id := "u", reason := "x", disabled := false }], [{ user_id := "w" }],
     [], [⟨"sync_revision", "r0"⟩], []⟩
    (by decide) (by decide) (by decide)).1).trans (by decide)

/-- C7: replaying the same incremental payload twice produces the same final
BlockEntry and ExemptEntry collections as applying it once. -/
theorem claim_C7_incremental_idempotent (resp : SyncResponse) (db : DB)
    (h : resp.strategy = "incremental") :
    ((syncBlacklist (some resp) (fun _ => false)
        ((syncBlacklist (some resp) (fun _ => false) db).2)).2).blacklist_users
      = ((syncBlacklist (some resp) (fun _ => false) db).2).blacklist_users
    ∧ ((syncBlacklist (some resp) (fun _ => false)
        ((syncBlacklist (some resp) (fun _ => false) db).2)).2).blacklist_whitelist
      = ((syncBlacklist (some resp) (fun _ => false) db).2).blacklist_whitelist := by
  have hne : ¬ resp.strategy = "up-to-date" := by rw [h]; decide
  have hrun : ∀ d : DB, syncBlacklist (some resp) (fun _ => false) d =
      (!resp.data.upsertsData.isEmpty,
       { d with
           blacklist_users := removeKeysK (·.user_id) resp.data.deletesData
             (upsertListK (·.user_id) resp.data.upsertsData d.blacklist_users),
           blacklist_whitelist := removeKeysK (·.user_id) resp.data.wlDeletesData
             (upsertListK (·.user_id) resp.data.wlUpsertsData d.blacklist_whitelist),
           blacklist_meta := upsertK (·.key) ⟨"sync_revision", resp.newRevision⟩
             d.blacklist_meta }) := by
    intro d
    simp only [syncBlacklist, syncAttempt, if_neg hne, runOps_noFail]
    rw [applyOps_append, (applyOps_syncPlan_incr resp d h).1,
      (applyOps_syncPlan_incr resp d h).2]
    rfl
  rw [hrun db, hrun ((!resp.data.upsertsData.isEmpty,
    { db with
        blacklist_users := removeKeysK (·.user_id) resp.data.deletesData
          (upsertListK (·.user_id) resp.data.upsertsData db.blacklist_users),
        blacklist_whitelist := removeKeysK (·.user_id) resp.data.wlDeletesData
          (upsertListK (·.user_id) resp.data.wlUpsertsData db.blacklist_whitelist),
        blacklist_meta := upsertK (·.key) ⟨"sync_revision", resp.newRevision⟩
          db.blacklist_meta }) : Bool × DB).2]
  exact ⟨removeKeys_upsert_idem _ _ _, removeKeys_upsert_idem _ _ _⟩

/-- C7 witness on a concrete incremental payload and local state. -/
theorem claim_C7_witness :
    ((syncBlacklist
        (some ⟨"incremental", "r9",
          .obj none none
            (some [{ user_id := "a", reason := "ra", disabled := false },
                   { user_id := "b", reason := "rb", disabled := false }])
            (some ["b", "z"])
            (some [{ user_id := "w1" }])
            (some ["w0"])⟩)
        (fun _ => false)
        ((syncBlacklist
          (some ⟨"incremental", "r9",
            .obj none none
              (some [{ user_id := "a", reason := "ra", disabled := false },
                     { user_id := "b", reason := "rb", disabled := false }])
              (some ["b", "z"])
              (some [{ user_id := "w1" }])
              (some ["w0"])⟩)
          (fun _ => false)
          ⟨[{ user_id := "z", reason := "rz", disabled := false }],
           [{ user_id := "w0" }], [], [⟨"sync_revision", "r8"⟩], []⟩).2)).2).blacklist_users
      = ((syncBlacklist
          (some ⟨"incremental", "r9",
            .obj none none
              (some [{ user_id := "a", reason := "ra", disabled := false },
                     { user_id := "b", reason := "rb", disabled := false }])
              (some ["b", "z"])
              (some [{ user_id := "w1" }])
              (some ["w0"])⟩)
          (fun _ => false)
          ⟨[{ user_id := "z", reason := "rz", disabled := false }],
           [{ user_id := "w0" }], [], [⟨"sync_revision", "r8"⟩], []⟩).2).blacklist_users
    ∧ ((syncBlacklist
        (some ⟨"incremental", "r9",
          .obj none none
            (some [{ user_id := "a", reason := "ra", disabled := false },
                   { user_id := "b", reason := "rb", disabled := false }])
            (some ["b", "z"])
            (some [{ user_id := "w1" }])
            (some ["w0"])⟩)
        (fun _ => false)
        ((syncBlacklist
          (some ⟨"incremental", "r9",
            .obj none none
              (some [{ user_id := "a", reason := "ra", disabled := false },
                     { user_id := "b", reason := "rb", disabled := false }])
              (some ["b", "z"])
              (some [{ user_id := "w1" }])
              (some ["w0"])⟩)
          (fun _ => false)
          ⟨[{ user_id := "z", reason := "rz", disabled := false }],
           [{ user_id := "w0" }], [], [⟨"sync_revision", "r8"⟩], []⟩).2)).2).blacklist_whitelist
      = ((syncBlacklist
          (some ⟨"incremental", "r9",
            .obj none none
              (some [{ user_id := "a", reason := "ra", disabled := false },
                     { user_id := "b", reason := "rb", disabled := false }])
              (some ["b", "z"])
              (some [{ user_id := "w1" }])
              (some ["w0"])⟩)
          (fun _ => false)
          ⟨[{ user_id := "z", reason := "rz", disabled := false }],
           [{ user_id := "w0" }], [], [⟨"sync_revision", "r8"⟩], []⟩).2).blacklist_whitelist :=
  claim_C7_incremental_idempotent _ _ rfl

/-- C1: an identity in the statically configured protected set, or one having
an ExemptEntry row, is never notified about and never kicked, and
`checkAndHandleUser` returns `false` — even if an active BlockEntry exists and
no admin role applies, for every group mode and session state. -/
theorem claim_C1_protected_or_exempt_no_action
    (cfg : PluginConfig) (env : CheckEnv) (db : DB) (user_id : String)
    (h : user_id ∈ cfg.protectedUsers
      ∨ ∃ w ∈ db.blacklist_whitelist, w.user_id = user_id) :
    checkAndHandleUser cfg env db user_id = ⟨false, [], 0⟩ := by
  unfold checkAndHandleUser
  rcases hge : env.guildId with _ | g
  · rfl
  · by_cases h1 : effectiveMode cfg db g = "off"
    · simp [h1]
    · rcases h with hp | ⟨w, hw, hwid⟩
      · simp [h1, hp]
      · by_cases hp2 : user_id ∈ cfg.protectedUsers
        · simp [h1, hp2]
        · have hex : ∃ x ∈ db.blacklist_whitelist, x.user_id = user_id := ⟨w, hw, hwid⟩
          simp [h1, hp2, hex]

/-- C1 witness: a protected identity with an active BlockEntry row is left
alone and the call returns `false`. -/
theorem claim_C1_witness :
    checkAndHandleUser
      { protectedUsers := ["p"], defaultGuildMode := "kick", retryAttempts := 3,
        adminNotifyMessage := "A", kickNotifyMessage := "K", kickFailMessage := "F" }
      { guildId := some "g", kickOk := fun _ => true }
      ⟨[{ user_id := "p", reason := "spam", disabled := false }], [], [], [], []⟩
      "p" = ⟨false, [], 0⟩ :=
  claim_C1_protected_or_exempt_no_action _ _ _ _ (Or.inl (by decide))

/-- C6: with effective mode `kick`, a retry budget of 3, and every removal
attempt failing, the engine sends no notification, sends the rendered failure
template exactly once (after the final attempt), makes exactly 3 attempts and
returns `false`; and in general a `true` result requires a successful removal
attempt inside the retry budget. -/
theorem claim_C6_kick_all_fail
    (cfg : PluginConfig) (env : CheckEnv) (db : DB) (user_id g : String)
    (entry : BlacklistEntry)
    (hge : env.guildId = some g)
    (hmode : effectiveMode cfg db g = "kick")
    (hretry : cfg.retryAttempts = 3)
    (hok : ∀ j, env.kickOk j = false)
    (hprot : user_id ∉ cfg.protectedUsers)
    (hwl : ¬ ∃ w ∈ db.blacklist_whitelist, w.user_id = user_id)
    (hentry : db.blacklist_users.find?
        (fun e => e.user_id == user_id && !e.disabled) = some entry)
    (hadmin : env.isAdmin = false) :
    checkAndHandleUser cfg env db user_id
      = ⟨false, [renderKickFail cfg.kickFailMessage (displayName env user_id)
          (env.kickErr 2)], 3⟩
    ∧ ∀ (cfg' : PluginConfig) (env' : CheckEnv) (db' : DB) (uid' : String),
        (checkAndHandleUser cfg' env' db' uid').kicked = true →
        ∃ i, i < cfg'.retryAttempts ∧ env'.kickOk i = true := by
  constructor
  · unfold checkAndHandleUser
    rw [hge]
    have hkick := runKick_all_fail env.kickOk env.kickErr cfg.kickFailMessage
      (displayName env user_id) hok 2 0
    simp [hmode, hprot, hwl, hentry, hadmin, hretry, hkick]
  · intro cfg' env' db' uid' h
    exact checkAndHandleUser_kicked cfg' env' db' uid' h

/-- C6 witness: concrete config and oracles exercising the all-fail scenario. -/
theorem claim_C6_witness :
    checkAndHandleUser
        { protectedUsers := [], defaultGuildMode := "kick", retryAttempts := 3,
          adminNotifyMessage := "A", kickNotifyMessage := "K",
          kickFailMessage := "fail {user}: {reason}" }
        { guildId := some "g1", kickErr := fun _ => "boom" }
        ⟨[{ user_id := "bad", reason := "r", disabled := false }], [], [], [], []⟩
        "bad"
      = ⟨false, ["fail bad: boom"], 3⟩ :=
  ((claim_C6_kick_all_fail
      { protectedUsers := [], defaultGuildMode := "kick", retryAttempts := 3,
        adminNotifyMessage := "A", kickNotifyMessage := "K",
        kickFailMessage := "fail {user}: {reason}" }
      { guildId := some "g1", kickErr := fun _ => "boom" }
      ⟨[{ user_id := "bad", reason := "r", disabled := false }], [], [], [], []⟩
      "bad" "g1" { user_id := "bad", reason := "r", disabled := false }
      rfl rfl rfl (fun _ => rfl) (by decide) (by decide) (by decide) rfl).1).trans
    (by decide)

/-- C4: for a fetched item within the retry budget whose delivery fails, a
network-classified failure leaves its queue row completely untouched, while a
business-classified failure leaves it in place with `retryCount` incremented
by exactly one. -/
theorem claim_C4_failure_classification
    (dlv : String → Option DeliverError) (db : DB) (it : OfflineRequest)
    (e : DeliverError)
    (hnd : (db.blacklist_request_queue.map (·.id)).Nodup)
    (hmem : it ∈ drainBatch db)
    (hretry : it.retryCount ≤ 5)
    (hdlv : dlv it.id = some e) :
    db.blacklist_request_queue.filter (fun x => x.id == it.id) = [it]
    ∧ (isNetworkError e = true →
        ((processOfflineQueue dlv (fun _ => false) false db).2.db.blacklist_request_queue.filter
          (fun x => x.id == it.id)) = [it])
    ∧ (isNetworkError e = false →
        ((processOfflineQueue dlv (fun _ => false) false db).2.db.blacklist_request_queue.filter
          (fun x => x.id == it.id)) = [{ it with retryCount := it.retryCount + 1 }]) := by
  have hqm : it ∈ db.blacklist_request_queue := drainBatch_sublist_mem hmem
  have hinit : db.blacklist_request_queue.filter (fun x => x.id == it.id) = [it] :=
    filter_eq_single_of_nodup hnd hqm
  have hbnd : ((drainBatch db).map (·.id)).Nodup := drainBatch_ids_nodup hnd
  obtain ⟨pre, post, hsplit⟩ := List.append_of_mem hmem
  have hnd' := hsplit ▸ hbnd
  rw [List.map_append, List.nodup_append] at hnd'
  have hpre : ∀ x ∈ pre, x.id ≠ it.id := by
    intro x hx hc
    apply hnd'.2.2 (List.mem_map_of_mem (fun y => y.id) hx)
    rw [List.map_cons, hc]
    exact List.mem_cons_self _ _
  have hpost : ∀ x ∈ post, x.id ≠ it.id := by
    intro x hx hc
    have h2 := hnd'.2.1
    rw [List.map_cons, List.nodup_cons] at h2
    exact h2.1 (hc ▸ List.mem_map_of_mem (fun y => y.id) hx)
  have hdb := (processOfflineQueue_noFail dlv db).1
  rw [hdb, hsplit, drainGo_append]
  have hd1 : ((drainGo dlv pre db).1).blacklist_request_queue.filter
      (fun x => x.id == it.id) = [it] := by
    rw [drainGo_filter_untouched dlv it.id pre db hpre]
    exact hinit
  refine ⟨hinit, ?_, ?_⟩
  · intro hnet
    simp only [drainGo, if_neg (by omega : ¬ it.retryCount > 5), hdlv, hnet, if_true]
    rw [drainGo_filter_untouched dlv it.id post _ hpost]
    exact hd1
  · intro hbiz
    simp only [drainGo, if_neg (by omega : ¬ it.retryCount > 5), hdlv, hbiz,
      Bool.false_eq_true, if_false]
    rw [drainGo_filter_untouched dlv it.id post _ hpost]
    show ((setRetry it.id (it.retryCount + 1)
        ((drainGo dlv pre db).1).blacklist_request_queue).filter
        (fun x => x.id == it.id)) = _
    rw [filter_setRetry, hd1]
    simp

/-- C4 witness: a timeout-style error (`ECONNABORTED`, no response) leaves
the queued item completely untouched, and a business error (response
received) on the same queue bumps its retry count to exactly 3. -/
theorem claim_C4_witness :
    (((processOfflineQueue (fun _ => some ⟨some "ECONNABORTED", false⟩)
        (fun _ => false) false
        ⟨[], [], [⟨"a", "ADD", {}, 1, 2⟩], [], []⟩).2.db.blacklist_request_queue.filter
      (fun x => x.id == "a")) = [⟨"a", "ADD", {}, 1, 2⟩])
    ∧ (((processOfflineQueue (fun _ => some ⟨none, true⟩)
        (fun _ => false) false
        ⟨[], [], [⟨"a", "ADD", {}, 1, 2⟩], [], []⟩).2.db.blacklist_request_queue.filter
      (fun x => x.id == "a")) = [⟨"a", "ADD", {}, 1, 3⟩]) :=
  ⟨(claim_C4_failure_classification (fun _ => some ⟨some "ECONNABORTED", false⟩)
      ⟨[], [], [⟨"a", "ADD", {}, 1, 2⟩], [], []⟩
      ⟨"a", "ADD", {}, 1, 2⟩ ⟨some "ECONNABORTED", false⟩
      (by decide) (by decide) (by decide) rfl).2.1 rfl,
   (claim_C4_failure_classification (fun _ => some ⟨none, true⟩)
      ⟨[], [], [⟨"a", "ADD", {}, 1, 2⟩], [], []⟩
      ⟨"a", "ADD", {}, 1, 2⟩ ⟨none, true⟩
      (by decide) (by decide) (by decide) rfl).2.2 rfl⟩

/-- C5: during a drain, a fetched item with `retryCount > 5` is evicted with
no delivery attempt, whereas one with `retryCount = 5` does get a delivery
attempt. -/
theorem claim_C5_dead_letter
    (dlv : String → Option DeliverError) (db : DB) (it : OfflineRequest)
    (hnd : (db.blacklist_request_queue.map (·.id)).Nodup)
    (hmem : it ∈ drainBatch db) :
    (it.retryCount > 5 →
      it.id ∉ (processOfflineQueue dlv (fun _ => false) false db).2.attempts
      ∧ ((processOfflineQueue dlv (fun _ => false) false db).2.db.blacklist_request_queue.filter
          (fun x => x.id == it.id)) = [])
    ∧ (it.retryCount = 5 →
      it.id ∈ (processOfflineQueue dlv (fun _ => false) false db).2.attempts) := by
  have hbnd : ((drainBatch db).map (·.id)).Nodup := drainBatch_ids_nodup hnd
  have hatt := (processOfflineQueue_noFail dlv db).2
  have hdb := (processOfflineQueue_noFail dlv db).1
  constructor
  · intro hdead
    constructor
    · rw [hatt, drainGo_attempts]
      intro hc
      obtain ⟨it', hit', hsome⟩ := List.mem_filterMap.mp hc
      by_cases hle : it'.retryCount ≤ 5
      · rw [if_pos hle] at hsome
        have hid : it'.id = it.id := Option.some.inj hsome
        have heq : it' = it := nodup_key_eq hbnd hit' hmem hid
        rw [heq] at hle
        omega
      · rw [if_neg hle] at hsome
        cases hsome
    · obtain ⟨pre, post, hsplit⟩ := List.append_of_mem hmem
      rw [hdb, hsplit, drainGo_append]
      simp only [drainGo, if_pos hdead]
      apply drainGo_filter_nil
      exact filter_removeId_self it.id _
  · intro hfive
    rw [hatt, drainGo_attempts]
    exact List.mem_filterMap.mpr ⟨it, hmem, by rw [if_pos (by omega)]⟩

/-- C5 witness: on a queue holding retry counts 6 and 5, the retry-6 item is
evicted with no delivery attempt while the retry-5 item is attempted. -/
theorem claim_C5_witness :
    ("a" ∉ (processOfflineQueue (fun _ => none) (fun _ => false) false
        ⟨[], [], [⟨"a", "ADD", {}, 1, 6⟩, ⟨"b", "ADD", {}, 2, 5⟩], [], []⟩).2.attempts
    ∧ ((processOfflineQueue (fun _ => none) (fun _ => false) false
        ⟨[], [], [⟨"a", "ADD", {}, 1, 6⟩, ⟨"b", "ADD", {}, 2, 5⟩], [], []⟩).2.db.blacklist_request_queue.filter
          (fun x => x.id == "a")) = [])
    ∧ "b" ∈ (processOfflineQueue (fun _ => none) (fun _ => false) false
        ⟨[], [], [⟨"a", "ADD", {}, 1, 6⟩, ⟨"b", "ADD", {}, 2, 5⟩], [], []⟩).2.attempts :=
  ⟨(claim_C5_dead_letter (fun _ => none)
      ⟨[], [], [⟨"a", "ADD", {}, 1, 6⟩, ⟨"b", "ADD", {}, 2, 5⟩], [], []⟩
      ⟨"a", "ADD", {}, 1, 6⟩ (by decide) (by decide)).1 (by decide),
   (claim_C5_dead_letter (fun _ => none)
      ⟨[], [], [⟨"a", "ADD", {}, 1, 6⟩, ⟨"b", "ADD", {}, 2, 5⟩], [], []⟩
      ⟨"b", "ADD", {}, 2, 5⟩ (by decide) (by decide)).2 rfl⟩

/-- C8: a drain entered while the guard flag is set is a complete no-op —
unchanged store, zero delivery attempts, zero store operations, flag left
set — and a drain that does run always exits with the flag cleared, whatever
the delivery outcomes and store failures. -/
theorem claim_C8_reentrancy_guard (dlv : String → Option DeliverError)
    (sfail : Nat → Bool) (db : DB) :
    processOfflineQueue dlv sfail true db = (true, ⟨db, [], 0⟩)
    ∧ (processOfflineQueue dlv sfail false db).1 = false := by
  constructor
  · rfl
  · unfold processOfflineQueue
    rw [if_neg (by decide : ¬ (false : Bool) = true)]

/-- C9 counterexample: a payload that carries its own `request_id` is *not*
stored under that id — `queueRequest` reads the absent camelCase `requestId`
field and falls back to a fresh id. -/
theorem claim_C9_counterexample :
    ((queueRequest "fresh-uuid" "ADD"
        { request_id := some "cmd-id", requestId := none } 7
        ⟨[], [], [], [], []⟩).1 = "fresh-uuid")
    ∧ ("fresh-uuid" : String) ≠ "cmd-id"
    ∧ ((queueRequest "fresh-uuid" "ADD"
        { request_id := some "cmd-id", requestId := none } 7
        ⟨[], [], [], [], []⟩).2.2.blacklist_request_queue.map (·.id)) = ["fresh-uuid"] :=
  ⟨rfl, by decide, rfl⟩

/-- C9 (amended): `queueRequest` persists one QueuedRequest whose key equals
the returned id with `retryCount = 0`; it reuses an id only from the payload
field `requestId`, and generates a fresh one otherwise — in particular for
command-layer payloads, which carry their id in `request_id`. -/
theorem claim_C9_enqueue_contract (freshId ty : String) (payload : Payload)
    (now : Nat) (db : DB) :
    (queueRequest freshId ty payload now db).2.2.blacklist_request_queue
      = db.blacklist_request_queue
        ++ [⟨(queueRequest freshId ty payload now db).1, ty,
             (queueRequest freshId ty payload now db).2.1, now, 0⟩]
    ∧ (payload.requestId = none → (queueRequest freshId ty payload now db).1 = freshId)
    ∧ (∀ s, payload.requestId = some s → s ≠ "" →
        (queueRequest freshId ty payload now db).1 = s) := by
  refine ⟨rfl, ?_, ?_⟩
  · intro h
    simp [queueRequest, jsOrUndef, h]
  · intro s hs hne
    simp [queueRequest, jsOrUndef, hs, hne]

/-- C9 amended-claim witness: with `requestId` present it is reused; the
stored row carries the returned key and retry count 0. -/
theorem claim_C9_witness :
    ((queueRequest "g" "ADD" { request_id := none, requestId := some "r" } 3
        ⟨[], [], [], [], []⟩).2.2.blacklist_request_queue
      = [] ++ [⟨(queueRequest "g" "ADD"
            { request_id := none, requestId := some "r" } 3
            ⟨[], [], [], [], []⟩).1, "ADD",
          (queueRequest "g" "ADD" { request_id := none, requestId := some "r" } 3
            ⟨[], [], [], [], []⟩).2.1, 3, 0⟩])
    ∧ (queueRequest "g" "ADD" { request_id := none, requestId := some "r" } 3
        ⟨[], [], [], [], []⟩).1 = "r" := by
  have h := claim_C9_enqueue_contract "g" "ADD"
    { request_id := none, requestId := some "r" } 3 ⟨[], [], [], [], []⟩
  exact ⟨h.1, h.2.2 "r" rfl (by decide)⟩

end BlacklistOnline
